import Mathlib

/-!
Verification development for the crawl orchestration engine of
src/crawler.user.js: frontier management (queue, depth, dedup, allowlist
filtering), the quiescence detector, the session start guard, and the
delivery pipeline with fallback, shallowly embedded as executable Lean
definitions mirroring the source functions.
-/

set_option maxHeartbeats 1000000
set_option autoImplicit false

namespace Crawler

/-- A parsed absolute URL. `host` is the hostname (no port), matching the
DOM `URL.hostname`; `hash` is the fragment. `new URL(...)` in the source
always yields such a parsed value; malformed inputs are modelled by the
`Option` result of `Env.resolveHref`. -/
structure Url where
  scheme : String
  host : String
  port : String
  path : String
  hash : String
deriving DecidableEq, Repr

/-- The origin of a URL: scheme + host + port, as compared by
`target.origin !== window.location.origin` in `isAllowedUrl`. -/
def Url.origin (u : Url) : String × String × String :=
  (u.scheme, u.host, u.port)

/-- The DOM `location.host`: hostname plus `:port` when a port is present.
This (not the bare hostname) is what `startCrawl` seeds into the allowlist. -/
def Url.hostString (u : Url) : String :=
  if u.port = "" then u.host else u.host ++ ":" ++ u.port

/-- `normalizeUrl` from the source: re-parse and strip the fragment. The
inputs reaching it in the crawl paths are already parsed URLs, so only the
fragment-stripping step is observable. -/
def normalizeUrl (u : Url) : Url :=
  { u with hash := "" }

/-- JS `String.prototype.startsWith`, modelled on the character list. -/
def jsStartsWith (s p : String) : Bool :=
  List.isPrefixOf p.data s.data

/-- JS `String.prototype.endsWith`, modelled on the character list. -/
def jsEndsWith (s p : String) : Bool :=
  List.isSuffixOf p.data s.data

/-- JS `String.prototype.length`, modelled as the character count. -/
def jsLength (s : String) : Nat :=
  s.data.length

/-- JS `item.slice(1, -1)`: drop the first and last characters. -/
def jsSliceInner (s : String) : String :=
  String.mk ((s.data.drop 1).take (s.data.length - 2))

/-- A frontier entry `{ url, depth }` as pushed onto `state.queue`. -/
structure FrontierEntry where
  url : Url
  depth : Nat
deriving DecidableEq, Repr

/-- The ambient environment of one crawl session: the `CONFIG` limits,
`window.location`, the JS regex engine (`new RegExp` + `.test`, `none`
meaning the constructor throws on a malformed pattern), and relative URL
resolution (`new URL(href, base)`, `none` meaning it throws). -/
structure Env where
  maxDepth : Nat
  maxPages : Nat
  location : Url
  regexCompile : String → Option (String → Bool)
  resolveHref : String → Url → Option Url

/-- The mutable crawler `state` fields the crawl logic reads and writes.
`visited` models the JS `Set` by a duplicate-free insertion-ordered list,
`allowlist` by its iteration-ordered element list. -/
structure CrawlState where
  isRunning : Bool
  isPaused : Bool
  isStopping : Bool
  startTime : Option Nat
  pagesVisited : Nat
  queue : List FrontierEntry
  visited : List Url
  allowlist : List String
deriving DecidableEq, Repr

/-- `Set.add`: append the element when absent, keep the set otherwise. -/
def addSet (s : List Url) (u : Url) : List Url :=
  if u ∈ s then s else s ++ [u]

/-- `isAllowedUrl` from the source: reject cross-origin targets, then test
the hostname against each allowlist entry — empty entries are falsy and
skipped, `/`-wrapped entries of length > 2 are compiled as regexes (a
compile error is caught and counts as no match), all other entries are
literal hostname comparisons. -/
def isAllowedUrl (env : Env) (allowlist : List String) (target : Url) : Bool :=
  if target.origin = env.location.origin then
    allowlist.any (fun item =>
      if item = "" then false
      else if jsStartsWith item ("/") && jsEndsWith item ("/") && decide (2 < jsLength item) then
        match env.regexCompile (jsSliceInner item) with
        | some test => test target.host
        | none => false
      else target.host == item)
  else false

/-- The per-anchor body of `enqueueLinks`: skip falsy/`javascript:`/`mailto:`
hrefs, resolve against the base URL (a throw is caught and skips the link),
normalize, then reject when the allowlist refuses, the URL is already
visited, already queued, or the queued+visited budget is reached; otherwise
push the entry at `currentDepth + 1`. -/
def processAnchor (env : Env) (baseUrl : Url) (currentDepth : Nat)
    (st : CrawlState) (href : String) : CrawlState :=
  if href = "" ∨ jsStartsWith href ("javascript:") = true ∨ jsStartsWith href ("mailto:") = true then st
  else
    match env.resolveHref href baseUrl with
    | none => st
    | some u =>
      if isAllowedUrl env st.allowlist (normalizeUrl u) = false then st
      else if normalizeUrl u ∈ st.visited then st
      else if st.queue.any (fun item => item.url = normalizeUrl u) then st
      else if env.maxPages ≤ st.queue.length + st.pagesVisited then st
      else { st with queue := st.queue ++ [⟨normalizeUrl u, currentDepth + 1⟩] }

/-- `enqueueLinks` from the source: a no-op when the children would exceed
`maxDepth`, otherwise fold `processAnchor` over the document's anchors. -/
def enqueueLinks (env : Env) (links : List String) (baseUrl : Url)
    (currentDepth : Nat) (st : CrawlState) : CrawlState :=
  if env.maxDepth < currentDepth + 1 then st
  else links.foldl (processAnchor env baseUrl currentDepth) st

/-- The tail of one successful `runQueue` iteration: the capture payload has
been delivered (no crawl-state effect), then the page's links are enqueued,
then the URL is marked visited and the counter incremented — in that
source order. -/
def visitEntry (env : Env) (e : FrontierEntry) (links : List String)
    (st : CrawlState) : CrawlState :=
  let st1 := enqueueLinks env links e.url e.depth st
  { st1 with visited := addSet st1.visited e.url,
             pagesVisited := st1.pagesVisited + 1 }

/-- One step of the `while` loop of `runQueue`, with an explicit fuel
parameter standing for the termination measure (see `runQueueFuel` and
`runQueueGo_fuel_irrelevant`: any fuel at or above that bound yields the
exact behaviour of the unbounded source loop). `pages` supplies each
`visitInIframe` result in order: `none` for a load timeout / capture
error (the entry is abandoned), `some links` for a captured document with
those anchors. The second component instruments which entries were
dequeued into action (passed the visited and depth checks), flagged `true`
when the visit succeeded and the URL was marked visited. -/
def runQueueGo (env : Env) :
    Nat → CrawlState → List (Option (List String)) →
      CrawlState × List (FrontierEntry × Bool)
  | 0, st, _ => (st, [])
  | fuel + 1, st, pages =>
    if st.queue.length = 0 ∨ env.maxPages ≤ st.pagesVisited then (st, [])
    else if st.isPaused = true ∨ st.isStopping = true then (st, [])
    else
      match st.queue with
      | [] => (st, [])
      | e :: rest =>
        if e.url ∈ st.visited then
          runQueueGo env fuel { st with queue := rest } pages
        else if env.maxDepth < e.depth then
          runQueueGo env fuel { st with queue := rest } pages
        else
          match pages with
          | [] =>
            let r := runQueueGo env fuel { st with queue := rest } []
            (r.1, (e, false) :: r.2)
          | none :: pages' =>
            let r := runQueueGo env fuel { st with queue := rest } pages'
            (r.1, (e, false) :: r.2)
          | some links :: pages' =>
            let r := runQueueGo env fuel (visitEntry env e links { st with queue := rest }) pages'
            (r.1, (e, true) :: r.2)

/-- A fuel bound sufficient to run the loop to completion: every iteration
pops one queue entry, the queue only grows during an iteration that
consumes a page result, and each such growth is capped by the page budget
(see `enqueueLinks_spec`). -/
def runQueueFuel (env : Env) (st : CrawlState)
    (pages : List (Option (List String))) : Nat :=
  st.queue.length + pages.length * (env.maxPages + 1) + 1

/-- The `while` loop of `runQueue`, run with sufficient fuel. -/
def runQueueAux (env : Env) (st : CrawlState)
    (pages : List (Option (List String))) :
    CrawlState × List (FrontierEntry × Bool) :=
  runQueueGo env (runQueueFuel env st pages) st pages

/-- `runQueue` from the source: bail out unless running and not
paused/stopping, run the loop, then recompute `isRunning` from the final
queue length and page budget. -/
def runQueue (env : Env) (st : CrawlState)
    (pages : List (Option (List String))) : CrawlState :=
  if st.isRunning = false ∨ st.isPaused = true ∨ st.isStopping = true then st
  else
    let st1 := (runQueueAux env st pages).1
    { st1 with isRunning := decide (0 < st1.queue.length ∧ st1.pagesVisited < env.maxPages) }

/-- `crawlCurrentPage` from the source: skip when the current page is
already visited; otherwise (when settling and capture succeed, `curPage =
some links`) deliver the payload, mark the current URL visited, bump the
counter, and enqueue the page's links at child depth of 0. `none` models a
capture failure caught by the surrounding try/catch. -/
def crawlCurrentPage (env : Env) (curPage : Option (List String))
    (st : CrawlState) : CrawlState :=
  if normalizeUrl env.location ∈ st.visited then st
  else
    match curPage with
    | none => st
    | some links =>
      let st1 := { st with visited := addSet st.visited (normalizeUrl env.location),
                           pagesVisited := st.pagesVisited + 1 }
      enqueueLinks env links (normalizeUrl env.location) 0 st1

/-- The synchronous reset-and-seed prefix of `startCrawl`: set the session
flags and start timestamp, clear the counter, queue and visited set,
rebuild the allowlist from the configured defaults, the user-added entries
and the current host (dropping falsy entries; the JS `Set` also dedups,
which `List.any` makes observationally irrelevant), and seed the queue with
the current page at depth 0. -/
def startCrawlSeed (env : Env) (configAllowlist dynamicAllowlist : List String)
    (now : Nat) (st : CrawlState) : CrawlState :=
  { st with isRunning := true, isPaused := false, isStopping := false,
            startTime := some now, pagesVisited := 0,
            queue := [⟨normalizeUrl env.location, 0⟩],
            visited := [],
            allowlist := (configAllowlist ++ dynamicAllowlist ++ [env.location.hostString]).filter
              (fun s => ¬ s = "") }

/-- `startCrawl` from the source: a guarded no-op while already running,
otherwise reset-and-seed, crawl the current page, and (unless a stop was
requested meanwhile) run the queue. -/
def startCrawl (env : Env) (configAllowlist dynamicAllowlist : List String)
    (now : Nat) (curPage : Option (List String))
    (pages : List (Option (List String))) (st : CrawlState) : CrawlState :=
  if st.isRunning = true then st
  else
    if (crawlCurrentPage env curPage
          (startCrawlSeed env configAllowlist dynamicAllowlist now st)).isStopping = true then
      crawlCurrentPage env curPage (startCrawlSeed env configAllowlist dynamicAllowlist now st)
    else
      runQueue env
        (crawlCurrentPage env curPage (startCrawlSeed env configAllowlist dynamicAllowlist now st))
        pages

/-! ### Quiescence detector (`createActivityTracker` / `waitForIdle`) -/

/-- The per-context activity tracker state: the pending-request counter and
the two activity timestamps maintained by the instrumented `fetch`/XHR
primitives and the mutation observer. -/
structure Tracker where
  pendingRequests : Int
  lastActivity : Nat
deriving DecidableEq, Repr

/-- `markNetworkActivity` from the source: bump the pending-request counter
by `delta`, clamped at zero, and stamp the activity time. -/
def markNetworkActivity (now : Nat) (delta : Int) (t : Tracker) : Tracker :=
  { pendingRequests := max 0 (t.pendingRequests + delta), lastActivity := now }

/-- Tracker state at creation: zero pending requests. -/
def initTracker (now : Nat) : Tracker :=
  { pendingRequests := 0, lastActivity := now }

/-- Replay a sequence of network-activity events `(delta, now)` — request
starts (`+1`), completions (`-1`), or any other deltas — through
`markNetworkActivity`. -/
def applyNetworkEvents (t : Tracker) (events : List (Int × Nat)) : Tracker :=
  events.foldl (fun acc e => markNetworkActivity e.2 e.1 acc) t

/-- The `check` closure of `waitForIdle`, entered with the counter at
`attempts`: increment the counter, resolve if both idle conditions hold at
this poll, resolve anyway once the counter passes 120, otherwise schedule
the next poll. `idleAt k` abstracts whether `networkIdle && domIdle` holds
at the k-th poll; the result is the 1-based index of the resolving poll. -/
def idleCheck (idleAt : Nat → Bool) (attempts : Nat) : Nat :=
  if idleAt (attempts + 1) = true then attempts + 1
  else if 120 < attempts + 1 then attempts + 1
  else idleCheck idleAt (attempts + 1)
termination_by 121 - attempts

/-- `waitForIdle` from the source: start polling with the attempt counter
at zero; returns the index of the poll at which the promise resolves. -/
def waitForIdle (idleAt : Nat → Bool) : Nat :=
  idleCheck idleAt 0

/-! ### Delivery pipeline (`handleOutput` / `postPayload` / `downloadPayload`) -/

/-- The externally observable actions of delivering one capture payload:
network POST attempts (direct `fetch` or the privileged `GM_xmlhttpRequest`
channel) and persisted artifact downloads. -/
inductive DeliveryEvent where
  | postDirect : DeliveryEvent
  | postGM : DeliveryEvent
  | download (filename : String) : DeliveryEvent
deriving DecidableEq, Repr

/-- Outcomes of the delivery collaborators for one payload: whether the
direct `fetch` POST resolves with an ok status (`false` covers both network
errors and non-2xx statuses), whether `GM_xmlhttpRequest` exists, and
whether it returns a 2xx status. -/
structure DeliveryEnv where
  postEndpoint : String
  fetchOk : Bool
  gmAvailable : Bool
  gmOk : Bool

/-- `String.padStart(4, c)` as used for the artifact sequence number. -/
def padStart (s : String) (n : Nat) (c : Char) : String :=
  String.mk (List.replicate (n - s.length) c) ++ s

/-- `postPayload` from the source: no attempt without an endpoint; a direct
`fetch` POST first; on its failure fall through to `gmPost`, which makes a
second network attempt only when `GM_xmlhttpRequest` is available. Returns
the success flag together with the network attempts made. -/
def postPayload (denv : DeliveryEnv) : Bool × List DeliveryEvent :=
  if denv.postEndpoint = "" then (false, [])
  else if denv.fetchOk = true then (true, [DeliveryEvent.postDirect])
  else if denv.gmAvailable = false then (false, [DeliveryEvent.postDirect])
  else (denv.gmOk, [DeliveryEvent.postDirect, DeliveryEvent.postGM])

/-- `downloadPayload` from the source: persist the markup file, then the
screenshot file. -/
def downloadPayload (htmlFilename pngFilename : String) : List DeliveryEvent :=
  [DeliveryEvent.download htmlFilename, DeliveryEvent.download pngFilename]

/-- `handleOutput` from the source: nothing for a null payload; derive the
zero-padded 4-digit sequence stem from `state.pagesVisited + 1`; when an
endpoint is configured try `postPayload` and stop on success; otherwise
(POST failed or no endpoint) fall back to the two artifact downloads. -/
def handleOutput (denv : DeliveryEnv) (payloadPresent : Bool)
    (pagesVisited : Nat) : List DeliveryEvent :=
  if payloadPresent = false then []
  else
    let index := padStart (toString (pagesVisited + 1)) 4 '0'
    let htmlFilename := "page-" ++ index ++ ".html"
    let pngFilename := "page-" ++ index ++ ".png"
    if denv.postEndpoint = "" then downloadPayload htmlFilename pngFilename
    else
      let r := postPayload denv
      if r.1 = true then r.2
      else r.2 ++ downloadPayload htmlFilename pngFilename

/-- Whether a delivery event is a persisted artifact. -/
def DeliveryEvent.isDownload : DeliveryEvent → Bool
  | DeliveryEvent.download _ => true
  | _ => false

/-- Whether a delivery event is a network POST attempt. -/
def DeliveryEvent.isPost : DeliveryEvent → Bool
  | DeliveryEvent.download _ => false
  | _ => true

/-! ### Spec-side restatement of the allowlist matcher (§4.2) -/

/-- The source's shape test for a pattern entry: wrapped in `/` delimiters
with a nonempty body. -/
def isPatternEntry (item : String) : Bool :=
  jsStartsWith item ("/") && jsEndsWith item ("/") && decide (2 < jsLength item)

/-- Spec-side matcher for one allowlist entry against a hostname, following
the spec's words: a pattern entry is compiled to a regular expression and
matched against the hostname (a malformed pattern matches nothing); a
literal entry requires exact hostname equality. Stated for comparison with
`isAllowedUrl`. -/
def entryMatchesSpec (regexCompile : String → Option (String → Bool))
    (item host : String) : Bool :=
  if isPatternEntry item = true then
    match regexCompile (jsSliceInner item) with
    | some test => test host
    | none => false
  else host == item

/-! ### Helper lemmas about the frontier operations -/

/-- Case analysis of `processAnchor`: either it is a no-op, or the href
resolved to a URL that passed every filter (allowed, unvisited, not queued,
budget not reached) and was appended at depth `d + 1`. -/
theorem processAnchor_spec (env : Env) (baseUrl : Url) (d : Nat)
    (st : CrawlState) (href : String) :
    processAnchor env baseUrl d st href = st ∨
    ∃ u, env.resolveHref href baseUrl = some u ∧
      isAllowedUrl env st.allowlist (normalizeUrl u) = true ∧
      normalizeUrl u ∉ st.visited ∧
      (∀ i ∈ st.queue, i.url ≠ normalizeUrl u) ∧
      st.queue.length + st.pagesVisited < env.maxPages ∧
      processAnchor env baseUrl d st href =
        { st with queue := st.queue ++ [⟨normalizeUrl u, d + 1⟩] } := by
  unfold processAnchor
  split
  · exact Or.inl rfl
  · split
    · exact Or.inl rfl
    · rename_i u heq
      split
      · exact Or.inl rfl
      · split
        · exact Or.inl rfl
        · split
          · exact Or.inl rfl
          · split
            · exact Or.inl rfl
            · rename_i hall hvis hq hb
              refine Or.inr ⟨u, heq, ?_, hvis, ?_, ?_, rfl⟩
              · simpa using hall
              · intro i hi hcontra
                apply hq
                simp only [List.any_eq_true]
                exact ⟨i, hi, by simp [hcontra]⟩
              · omega

/-- Characterization of `enqueueLinks`: it only appends entries to the
queue; every appended entry has depth `d + 1`, an unvisited URL not equal
to any previously queued URL, and the final queue length respects the
page budget (or the original length when nothing fit). All other state
fields are untouched. -/
theorem enqueueLinks_spec (env : Env) (links : List String) (baseUrl : Url)
    (d : Nat) (st : CrawlState) :
    ∃ extra,
      enqueueLinks env links baseUrl d st = { st with queue := st.queue ++ extra } ∧
      (∀ e ∈ extra, e.depth = d + 1 ∧ e.url ∉ st.visited ∧ ∀ i ∈ st.queue, i.url ≠ e.url) ∧
      st.queue.length + extra.length + st.pagesVisited ≤
        max (st.queue.length + st.pagesVisited) env.maxPages := by
  have main : ∀ (ls : List String) (s : CrawlState),
      ∃ extra,
        ls.foldl (processAnchor env baseUrl d) s = { s with queue := s.queue ++ extra } ∧
        (∀ e ∈ extra, e.depth = d + 1 ∧ e.url ∉ s.visited ∧ ∀ i ∈ s.queue, i.url ≠ e.url) ∧
        s.queue.length + extra.length + s.pagesVisited ≤
          max (s.queue.length + s.pagesVisited) env.maxPages := by
    intro ls
    induction ls with
    | nil =>
      intro s
      refine ⟨[], by simp, by simp, ?_⟩
      simp only [List.length_nil, Nat.add_zero]
      exact Nat.le_max_left (s.queue.length + s.pagesVisited) env.maxPages
    | cons h t ih =>
      intro s
      rcases processAnchor_spec env baseUrl d s h with hno | ⟨u, _, _, hvis, hq, hb, hpush⟩
      · rcases ih s with ⟨extra, he, hcond, hlen⟩
        exact ⟨extra, by simpa [hno] using he, hcond, hlen⟩
      · rcases ih { s with queue := s.queue ++ [⟨normalizeUrl u, d + 1⟩] } with
          ⟨extra, he, hcond, hlen⟩
        refine ⟨⟨normalizeUrl u, d + 1⟩ :: extra, ?_, ?_, ?_⟩
        · simpa [hpush, List.append_assoc] using he
        · intro e hmem
          rcases List.mem_cons.mp hmem with rfl | hmem'
          · exact ⟨rfl, hvis, hq⟩
          · rcases hcond e hmem' with ⟨h1, h2, h3⟩
            refine ⟨h1, h2, ?_⟩
            intro i hi
            exact h3 i (by simp [hi])
        · simp only [List.length_append, List.length_cons] at hlen ⊢
          refine le_trans ?_ (Nat.le_max_right (s.queue.length + s.pagesVisited) env.maxPages)
          have hm : max (s.queue.length + 1 + s.pagesVisited) env.maxPages = env.maxPages :=
            Nat.max_eq_right (by omega)
          omega
  unfold enqueueLinks
  split
  · refine ⟨[], by simp, by simp, ?_⟩
    simp only [List.length_nil, Nat.add_zero]
    exact Nat.le_max_left (st.queue.length + st.pagesVisited) env.maxPages
  · exact main links st

/-- Characterization of one successful visit: the queue only grows by
budget-respecting fresh entries, the dequeued URL is appended to the
visited set, and the counter is bumped. -/
theorem visitEntry_spec (env : Env) (e : FrontierEntry) (links : List String)
    (st : CrawlState) (h : e.url ∉ st.visited) :
    ∃ extra,
      visitEntry env e links st =
        { st with queue := st.queue ++ extra,
                  visited := st.visited ++ [e.url],
                  pagesVisited := st.pagesVisited + 1 } ∧
      st.queue.length + extra.length + st.pagesVisited ≤
        max (st.queue.length + st.pagesVisited) env.maxPages := by
  rcases enqueueLinks_spec env links e.url e.depth st with ⟨extra, he, _, hlen⟩
  refine ⟨extra, ?_, hlen⟩
  unfold visitEntry
  rw [he]
  simp [addSet, h]

/-- The loop exits immediately when the queue is empty or the budget is
reached. -/
theorem runQueueGo_stop (env : Env) (fuel : Nat) (st : CrawlState)
    (pages : List (Option (List String)))
    (h : st.queue.length = 0 ∨ env.maxPages ≤ st.pagesVisited) :
    runQueueGo env (fuel + 1) st pages = (st, []) := by
  rw [runQueueGo]
  simp only [if_pos h]

/-- The loop breaks immediately when paused or stopping. -/
theorem runQueueGo_break (env : Env) (fuel : Nat) (st : CrawlState)
    (pages : List (Option (List String)))
    (h1 : ¬(st.queue.length = 0 ∨ env.maxPages ≤ st.pagesVisited))
    (h2 : st.isPaused = true ∨ st.isStopping = true) :
    runQueueGo env (fuel + 1) st pages = (st, []) := by
  rw [runQueueGo]
  simp only [if_neg h1, if_pos h2]

/-- A dequeued already-visited entry is skipped. -/
theorem runQueueGo_skip_visited (env : Env) (fuel : Nat) (st : CrawlState)
    (pages : List (Option (List String))) (e : FrontierEntry)
    (rest : List FrontierEntry)
    (h1 : ¬(st.queue.length = 0 ∨ env.maxPages ≤ st.pagesVisited))
    (h2 : ¬(st.isPaused = true ∨ st.isStopping = true))
    (hq : st.queue = e :: rest) (hv : e.url ∈ st.visited) :
    runQueueGo env (fuel + 1) st pages =
      runQueueGo env fuel { st with queue := rest } pages := by
  have h1' : ¬((e :: rest).length = 0 ∨ env.maxPages ≤ st.pagesVisited) := by
    simp only [not_or] at h1 ⊢
    exact ⟨by simp, h1.2⟩
  rw [runQueueGo]
  simp only [if_neg h1, if_neg h2, hq, if_pos hv, if_neg h1']

/-- A dequeued entry beyond the depth limit is skipped. -/
theorem runQueueGo_skip_depth (env : Env) (fuel : Nat) (st : CrawlState)
    (pages : List (Option (List String))) (e : FrontierEntry)
    (rest : List FrontierEntry)
    (h1 : ¬(st.queue.length = 0 ∨ env.maxPages ≤ st.pagesVisited))
    (h2 : ¬(st.isPaused = true ∨ st.isStopping = true))
    (hq : st.queue = e :: rest) (hv : e.url ∉ st.visited)
    (hd : env.maxDepth < e.depth) :
    runQueueGo env (fuel + 1) st pages =
      runQueueGo env fuel { st with queue := rest } pages := by
  have h1' : ¬((e :: rest).length = 0 ∨ env.maxPages ≤ st.pagesVisited) := by
    simp only [not_or] at h1 ⊢
    exact ⟨by simp, h1.2⟩
  rw [runQueueGo]
  simp only [if_neg h1, if_neg h2, hq, if_neg hv, if_pos hd, if_neg h1']

/-- A dequeued actionable entry with no page result left is abandoned. -/
theorem runQueueGo_nil_pages (env : Env) (fuel : Nat) (st : CrawlState)
    (e : FrontierEntry) (rest : List FrontierEntry)
    (h1 : ¬(st.queue.length = 0 ∨ env.maxPages ≤ st.pagesVisited))
    (h2 : ¬(st.isPaused = true ∨ st.isStopping = true))
    (hq : st.queue = e :: rest) (hv : e.url ∉ st.visited)
    (hd : ¬env.maxDepth < e.depth) :
    runQueueGo env (fuel + 1) st [] =
      ((runQueueGo env fuel { st with queue := rest } []).1,
       (e, false) :: (runQueueGo env fuel { st with queue := rest } []).2) := by
  have h1' : ¬((e :: rest).length = 0 ∨ env.maxPages ≤ st.pagesVisited) := by
    simp only [not_or] at h1 ⊢
    exact ⟨by simp, h1.2⟩
  rw [runQueueGo]
  simp only [if_neg h1, if_neg h2, hq, if_neg hv, if_neg hd, if_neg h1']

/-- A dequeued actionable entry whose iframe visit fails is abandoned. -/
theorem runQueueGo_none_page (env : Env) (fuel : Nat) (st : CrawlState)
    (e : FrontierEntry) (rest : List FrontierEntry)
    (pages' : List (Option (List String)))
    (h1 : ¬(st.queue.length = 0 ∨ env.maxPages ≤ st.pagesVisited))
    (h2 : ¬(st.isPaused = true ∨ st.isStopping = true))
    (hq : st.queue = e :: rest) (hv : e.url ∉ st.visited)
    (hd : ¬env.maxDepth < e.depth) :
    runQueueGo env (fuel + 1) st (none :: pages') =
      ((runQueueGo env fuel { st with queue := rest } pages').1,
       (e, false) :: (runQueueGo env fuel { st with queue := rest } pages').2) := by
  have h1' : ¬((e :: rest).length = 0 ∨ env.maxPages ≤ st.pagesVisited) := by
    simp only [not_or] at h1 ⊢
    exact ⟨by simp, h1.2⟩
  rw [runQueueGo]
  simp only [if_neg h1, if_neg h2, hq, if_neg hv, if_neg hd, if_neg h1']

/-- A dequeued actionable entry whose iframe visit succeeds is processed by
`visitEntry`. -/
theorem runQueueGo_some_page (env : Env) (fuel : Nat) (st : CrawlState)
    (e : FrontierEntry) (rest : List FrontierEntry) (links : List String)
    (pages' : List (Option (List String)))
    (h1 : ¬(st.queue.length = 0 ∨ env.maxPages ≤ st.pagesVisited))
    (h2 : ¬(st.isPaused = true ∨ st.isStopping = true))
    (hq : st.queue = e :: rest) (hv : e.url ∉ st.visited)
    (hd : ¬env.maxDepth < e.depth) :
    runQueueGo env (fuel + 1) st (some links :: pages') =
      ((runQueueGo env fuel (visitEntry env e links { st with queue := rest }) pages').1,
       (e, true) :: (runQueueGo env fuel (visitEntry env e links { st with queue := rest }) pages').2) := by
  have h1' : ¬((e :: rest).length = 0 ∨ env.maxPages ≤ st.pagesVisited) := by
    simp only [not_or] at h1 ⊢
    exact ⟨by simp, h1.2⟩
  rw [runQueueGo]
  simp only [if_neg h1, if_neg h2, hq, if_neg hv, if_neg hd, if_neg h1']

/-- Any fuel at or above `runQueueFuel` yields the same result as the next
fuel value: the loop has already run to completion, so the explicit fuel is
faithful to the unbounded source `while` loop. -/
theorem runQueueGo_fuel_succ (env : Env) :
    ∀ (fuel : Nat) (st : CrawlState) (pages : List (Option (List String))),
      runQueueFuel env st pages ≤ fuel →
      runQueueGo env (fuel + 1) st pages = runQueueGo env fuel st pages := by
  intro fuel
  induction fuel with
  | zero =>
    intro st pages h
    exact absurd h (by simp [runQueueFuel])
  | succ k ih =>
    intro st pages h
    by_cases h1 : st.queue.length = 0 ∨ env.maxPages ≤ st.pagesVisited
    · rw [runQueueGo_stop env (k + 1) st pages h1, runQueueGo_stop env k st pages h1]
    · by_cases h2 : st.isPaused = true ∨ st.isStopping = true
      · rw [runQueueGo_break env (k + 1) st pages h1 h2,
          runQueueGo_break env k st pages h1 h2]
      · rcases hq : st.queue with _ | ⟨e, rest⟩
        · exact absurd (Or.inl (by simp [hq])) h1
        · have hf : runQueueFuel env st pages = rest.length + 1 + pages.length * (env.maxPages + 1) + 1 := by
            simp [runQueueFuel, hq]
          by_cases hv : e.url ∈ st.visited
          · rw [runQueueGo_skip_visited env (k + 1) st pages e rest h1 h2 hq hv,
              runQueueGo_skip_visited env k st pages e rest h1 h2 hq hv]
            exact ih { st with queue := rest } pages (by simp only [runQueueFuel] at *; omega)
          · by_cases hd : env.maxDepth < e.depth
            · rw [runQueueGo_skip_depth env (k + 1) st pages e rest h1 h2 hq hv hd,
                runQueueGo_skip_depth env k st pages e rest h1 h2 hq hv hd]
              exact ih { st with queue := rest } pages (by simp only [runQueueFuel] at *; omega)
            · rcases hp : pages with _ | ⟨page, pages'⟩
              · rw [runQueueGo_nil_pages env (k + 1) st e rest h1 h2 hq hv hd,
                  runQueueGo_nil_pages env k st e rest h1 h2 hq hv hd,
                  ih { st with queue := rest } []
                    (by simp only [runQueueFuel, hp, List.length_nil] at *; omega)]
              · rcases page with _ | links
                · rw [runQueueGo_none_page env (k + 1) st e rest pages' h1 h2 hq hv hd,
                    runQueueGo_none_page env k st e rest pages' h1 h2 hq hv hd,
                    ih { st with queue := rest } pages'
                      (by
                        simp only [runQueueFuel, hp, List.length_cons, Nat.add_mul, Nat.one_mul] at *
                        generalize hA : pages'.length * (env.maxPages + 1) = A at *
                        omega)]
                · rcases visitEntry_spec env e links { st with queue := rest } hv with
                    ⟨extra, heq2, hlen⟩
                  rw [runQueueGo_some_page env (k + 1) st e rest links pages' h1 h2 hq hv hd,
                    runQueueGo_some_page env k st e rest links pages' h1 h2 hq hv hd,
                    ih (visitEntry env e links { st with queue := rest }) pages'
                      (by
                        have hql : (visitEntry env e links { st with queue := rest }).queue.length =
                            rest.length + extra.length := by
                          rw [heq2]; simp
                        have hmax : max (rest.length + st.pagesVisited) env.maxPages ≤
                            rest.length + st.pagesVisited + env.maxPages :=
                          Nat.max_le.mpr ⟨Nat.le_add_right _ _, Nat.le_add_left _ _⟩
                        simp only [runQueueFuel, hp, List.length_cons, hql, Nat.add_mul, Nat.one_mul] at *
                        generalize hA : pages'.length * (env.maxPages + 1) = A at *
                        omega)]

/-- With sufficient fuel, `runQueueGo` computes `runQueueAux`: the fuel
parameter is irrelevant past the `runQueueFuel` bound. -/
theorem runQueueGo_fuel_irrelevant (env : Env) (fuel : Nat) (st : CrawlState)
    (pages : List (Option (List String)))
    (h : runQueueFuel env st pages ≤ fuel) :
    runQueueGo env fuel st pages = runQueueAux env st pages := by
  have key : ∀ d, runQueueGo env (runQueueFuel env st pages + d) st pages =
      runQueueAux env st pages := by
    intro d
    induction d with
    | zero => rfl
    | succ c ihc =>
      have : runQueueFuel env st pages + (c + 1) = (runQueueFuel env st pages + c) + 1 := rfl
      rw [this, runQueueGo_fuel_succ env _ _ _ (Nat.le_add_right _ _), ihc]
  have hd : fuel = runQueueFuel env st pages + (fuel - runQueueFuel env st pages) := by omega
  rw [hd, key]

/-- The URLs of the trace entries that were successfully processed (marked
visited). -/
def succUrls (tr : List (FrontierEntry × Bool)) : List Url :=
  (tr.filter (fun p => p.2)).map (fun p => p.1.url)

/-- The budget invariant: the visited count mirrors `pagesVisited`, the
visited+queued total stays within `maxPages + 1`, and the visited count
stays within `maxPages`. -/
def budgetInv (env : Env) (st : CrawlState) : Prop :=
  st.visited.length = st.pagesVisited ∧
  st.visited.length + st.queue.length ≤ env.maxPages + 1 ∧
  st.visited.length ≤ env.maxPages

/-- The visited-set bound alone, with the counter synchronization it needs. -/
def visitedInv (env : Env) (st : CrawlState) : Prop :=
  st.visited.length = st.pagesVisited ∧ st.visited.length ≤ env.maxPages

/-- Abandoned entries contribute nothing to the processed URLs. -/
theorem succUrls_cons_false (e : FrontierEntry) (tr : List (FrontierEntry × Bool)) :
    succUrls ((e, false) :: tr) = succUrls tr := by
  simp [succUrls]

/-- A processed entry contributes its URL. -/
theorem succUrls_cons_true (e : FrontierEntry) (tr : List (FrontierEntry × Bool)) :
    succUrls ((e, true) :: tr) = e.url :: succUrls tr := by
  simp [succUrls]

/-- Membership in the processed URLs. -/
theorem mem_succUrls {u : Url} {tr : List (FrontierEntry × Bool)} :
    u ∈ succUrls tr ↔ ∃ p ∈ tr, p.2 = true ∧ p.1.url = u := by
  simp only [succUrls, List.mem_map, List.mem_filter]
  constructor
  · rintro ⟨p, ⟨hp, hp2⟩, rfl⟩
    exact ⟨p, hp, hp2, rfl⟩
  · rintro ⟨p, hp, hp2, rfl⟩
    exact ⟨p, ⟨hp, hp2⟩, rfl⟩

/-- Master lemma for the loop: the visited set only grows, the budget and
visited-bound invariants are preserved, every entry dequeued into action
respects the depth bound, every successfully processed entry had an
unvisited URL that ends up visited, and no URL is successfully processed
twice. Stated for every fuel value, hence for `runQueueAux`. -/
theorem runQueueGo_master (env : Env) :
    ∀ (fuel : Nat) (st : CrawlState) (pages : List (Option (List String))),
      (∀ u ∈ st.visited, u ∈ (runQueueGo env fuel st pages).1.visited) ∧
      (budgetInv env st → budgetInv env (runQueueGo env fuel st pages).1) ∧
      (visitedInv env st → visitedInv env (runQueueGo env fuel st pages).1) ∧
      (∀ p ∈ (runQueueGo env fuel st pages).2, p.1.depth ≤ env.maxDepth) ∧
      (∀ p ∈ (runQueueGo env fuel st pages).2, p.2 = true →
        p.1.url ∉ st.visited ∧ p.1.url ∈ (runQueueGo env fuel st pages).1.visited) ∧
      (succUrls (runQueueGo env fuel st pages).2).Nodup := by
  intro fuel
  induction fuel with
  | zero =>
    intro st pages
    refine ⟨fun u hu => hu, fun h => h, fun h => h, by simp [runQueueGo], by simp [runQueueGo], ?_⟩
    simp [runQueueGo, succUrls]
  | succ k ih =>
    intro st pages
    by_cases h1 : st.queue.length = 0 ∨ env.maxPages ≤ st.pagesVisited
    · rw [runQueueGo_stop env k st pages h1]
      exact ⟨fun u hu => hu, fun h => h, fun h => h, by simp, by simp, by simp [succUrls]⟩
    · by_cases h2 : st.isPaused = true ∨ st.isStopping = true
      · rw [runQueueGo_break env k st pages h1 h2]
        exact ⟨fun u hu => hu, fun h => h, fun h => h, by simp, by simp, by simp [succUrls]⟩
      · rcases hq : st.queue with _ | ⟨e, rest⟩
        · exact absurd (Or.inl (by simp [hq])) h1
        · have hpvlt : st.pagesVisited < env.maxPages := by
            rcases not_or.mp h1 with ⟨_, hb⟩
            omega
          by_cases hv : e.url ∈ st.visited
          · rw [runQueueGo_skip_visited env k st pages e rest h1 h2 hq hv]
            have IH := ih { st with queue := rest } pages
            refine ⟨IH.1, ?_, IH.2.2.1, IH.2.2.2.1, IH.2.2.2.2.1, IH.2.2.2.2.2⟩
            intro hInv
            apply IH.2.1
            rcases hInv with ⟨ha, hb, hc⟩
            refine ⟨ha, ?_, hc⟩
            rw [hq] at hb
            simp only [List.length_cons] at hb
            simpa using Nat.le_of_succ_le (by omega)
          · by_cases hd : env.maxDepth < e.depth
            · rw [runQueueGo_skip_depth env k st pages e rest h1 h2 hq hv hd]
              have IH := ih { st with queue := rest } pages
              refine ⟨IH.1, ?_, IH.2.2.1, IH.2.2.2.1, IH.2.2.2.2.1, IH.2.2.2.2.2⟩
              intro hInv
              apply IH.2.1
              rcases hInv with ⟨ha, hb, hc⟩
              refine ⟨ha, ?_, hc⟩
              rw [hq] at hb
              simp only [List.length_cons] at hb
              simpa using Nat.le_of_succ_le (by omega)
            · have hskipLike :
                  ∀ pages2 : List (Option (List String)),
                    (∀ u ∈ st.visited, u ∈ (runQueueGo env k { st with queue := rest } pages2).1.visited) ∧
                    (budgetInv env st →
                      budgetInv env (runQueueGo env k { st with queue := rest } pages2).1) ∧
                    (visitedInv env st →
                      visitedInv env (runQueueGo env k { st with queue := rest } pages2).1) ∧
                    (∀ p ∈ ((e, false) :: (runQueueGo env k { st with queue := rest } pages2).2),
                      p.1.depth ≤ env.maxDepth) ∧
                    (∀ p ∈ ((e, false) :: (runQueueGo env k { st with queue := rest } pages2).2),
                      p.2 = true →
                      p.1.url ∉ st.visited ∧
                      p.1.url ∈ (runQueueGo env k { st with queue := rest } pages2).1.visited) ∧
                    (succUrls ((e, false) :: (runQueueGo env k { st with queue := rest } pages2).2)).Nodup := by
                intro pages2
                have IH := ih { st with queue := rest } pages2
                refine ⟨IH.1, ?_, IH.2.2.1, ?_, ?_, ?_⟩
                · intro hInv
                  apply IH.2.1
                  rcases hInv with ⟨ha, hb, hc⟩
                  refine ⟨ha, ?_, hc⟩
                  rw [hq] at hb
                  simp only [List.length_cons] at hb
                  simpa using Nat.le_of_succ_le (by omega)
                · intro p hp
                  rcases List.mem_cons.mp hp with rfl | hp'
                  · exact Nat.not_lt.mp hd
                  · exact IH.2.2.2.1 p hp'
                · intro p hp hpt
                  rcases List.mem_cons.mp hp with rfl | hp'
                  · exact absurd hpt (by simp)
                  · exact IH.2.2.2.2.1 p hp' hpt
                · rw [succUrls_cons_false]
                  exact IH.2.2.2.2.2
              rcases hp : pages with _ | ⟨page, pages'⟩
              · rw [runQueueGo_nil_pages env k st e rest h1 h2 hq hv hd]
                exact hskipLike []
              · rcases page with _ | links
                · rw [runQueueGo_none_page env k st e rest pages' h1 h2 hq hv hd]
                  exact hskipLike pages'
                · rw [runQueueGo_some_page env k st e rest links pages' h1 h2 hq hv hd]
                  rcases visitEntry_spec env e links { st with queue := rest } hv with
                    ⟨extra, heq2, hlen⟩
                  have hvis2 : (visitEntry env e links { st with queue := rest }).visited =
                      st.visited ++ [e.url] := by
                    rw [heq2]
                  have hpv2 : (visitEntry env e links { st with queue := rest }).pagesVisited =
                      st.pagesVisited + 1 := by
                    rw [heq2]
                  have hq2 : (visitEntry env e links { st with queue := rest }).queue =
                      rest ++ extra := by
                    rw [heq2]
                  have IH := ih (visitEntry env e links { st with queue := rest }) pages'
                  have hmono : ∀ u ∈ st.visited,
                      u ∈ (runQueueGo env k (visitEntry env e links { st with queue := rest }) pages').1.visited := by
                    intro u hu
                    exact IH.1 u (by rw [hvis2]; exact List.mem_append_left _ hu)
                  have heurl : e.url ∈
                      (runQueueGo env k (visitEntry env e links { st with queue := rest }) pages').1.visited := by
                    exact IH.1 e.url (by rw [hvis2]; simp)
                  refine ⟨hmono, ?_, ?_, ?_, ?_, ?_⟩
                  · intro hInv
                    apply IH.2.1
                    rcases hInv with ⟨ha, hb, hc⟩
                    rw [hq] at hb
                    simp only [List.length_cons] at hb
                    have hrest : rest.length + st.pagesVisited ≤ env.maxPages := by omega
                    have hmax : max (rest.length + st.pagesVisited) env.maxPages = env.maxPages :=
                      Nat.max_eq_right hrest
                    rw [hmax] at hlen
                    simp only [List.length_cons] at hlen
                    refine ⟨?_, ?_, ?_⟩
                    · rw [hvis2, hpv2]
                      simp [ha]
                    · rw [hvis2, hq2]
                      simp only [List.length_append, List.length_singleton]
                      omega
                    · rw [hvis2]
                      simp only [List.length_append, List.length_singleton]
                      omega
                  · intro hInv
                    apply IH.2.2.1
                    rcases hInv with ⟨ha, hc⟩
                    constructor
                    · rw [hvis2, hpv2]
                      simp [ha]
                    · rw [hvis2]
                      simp only [List.length_append, List.length_singleton]
                      omega
                  · intro p hp
                    rcases List.mem_cons.mp hp with rfl | hp'
                    · exact Nat.not_lt.mp hd
                    · exact IH.2.2.2.1 p hp'
                  · intro p hp hpt
                    rcases List.mem_cons.mp hp with rfl | hp'
                    · exact ⟨hv, heurl⟩
                    · rcases IH.2.2.2.2.1 p hp' hpt with ⟨hnv, hfin⟩
                      refine ⟨?_, hfin⟩
                      intro hcontra
                      exact hnv (by rw [hvis2]; exact List.mem_append_left _ hcontra)
                  · rw [succUrls_cons_true]
                    refine List.Nodup.cons ?_ IH.2.2.2.2.2
                    intro hcontra
                    rcases mem_succUrls.mp hcontra with ⟨p, hp, hpt, hpu⟩
                    rcases IH.2.2.2.2.1 p hp hpt with ⟨hnv, _⟩
                    apply hnv
                    rw [hvis2, hpu]
                    simp

/-- `crawlCurrentPage` establishes the budget invariant from a state whose
visited+queued total is within budget with head-room for one more visit. -/
theorem crawlCurrentPage_inv (env : Env) (curPage : Option (List String))
    (st : CrawlState)
    (ha : st.visited.length = st.pagesVisited)
    (hb : st.visited.length + st.queue.length ≤ env.maxPages)
    (hc : st.pagesVisited < env.maxPages) :
    budgetInv env (crawlCurrentPage env curPage st) := by
  unfold crawlCurrentPage
  split
  · exact ⟨ha, by omega, by omega⟩
  · rename_i hnv
    rcases curPage with _ | links
    · show budgetInv env st
      exact ⟨ha, by omega, by omega⟩
    · show budgetInv env (enqueueLinks env links (normalizeUrl env.location) 0
        { st with visited := addSet st.visited (normalizeUrl env.location),
                  pagesVisited := st.pagesVisited + 1 })
      rcases enqueueLinks_spec env links (normalizeUrl env.location) 0
          { st with visited := addSet st.visited (normalizeUrl env.location),
                    pagesVisited := st.pagesVisited + 1 } with ⟨extra, he, _, hlen⟩
      rw [he]
      have hadd : addSet st.visited (normalizeUrl env.location) =
          st.visited ++ [normalizeUrl env.location] := by
        simp [addSet, hnv]
      have hmax : max (st.queue.length + (st.pagesVisited + 1)) env.maxPages ≤
          env.maxPages + 1 :=
        Nat.max_le.mpr ⟨by omega, by omega⟩
      have hle : st.queue.length + extra.length + (st.pagesVisited + 1) ≤
          env.maxPages + 1 := by
        refine le_trans ?_ hmax
        simpa using hlen
      refine ⟨?_, ?_, ?_⟩
      · simp [hadd, ha]
      · simp only [hadd, List.length_append, List.length_singleton]
        omega
      · simp only [hadd, List.length_append, List.length_singleton]
        omega

/-- `runQueue` preserves the budget invariant. -/
theorem runQueue_budget (env : Env) (st : CrawlState)
    (pages : List (Option (List String))) (h : budgetInv env st) :
    budgetInv env (runQueue env st pages) := by
  unfold runQueue
  split
  · exact h
  · have hm := (runQueueGo_master env (runQueueFuel env st pages) st pages).2.1 h
    rcases hm with ⟨ha, hb, hc⟩
    exact ⟨ha, hb, hc⟩

/-- `runQueue` preserves the visited-set bound. -/
theorem runQueue_visited (env : Env) (st : CrawlState)
    (pages : List (Option (List String))) (h : visitedInv env st) :
    visitedInv env (runQueue env st pages) := by
  unfold runQueue
  split
  · exact h
  · have hm := (runQueueGo_master env (runQueueFuel env st pages) st pages).2.2.1 h
    rcases hm with ⟨ha, hb⟩
    exact ⟨ha, hb⟩

/-! ### Lemmas about the quiescence detector -/

/-- `idleCheck` resolves at the first poll index satisfying the idleness
conditions, when one exists within the attempt window. -/
theorem idleCheck_first (idleAt : Nat → Bool) :
    ∀ (n a k : Nat), 121 - a ≤ n → a < k → k ≤ 121 → idleAt k = true →
      (∀ j, a < j → j < k → idleAt j = false) → idleCheck idleAt a = k := by
  intro n
  induction n with
  | zero =>
    intro a k h hak hk _ _
    omega
  | succ m ihm =>
    intro a k h hak hk hcond hprev
    rw [idleCheck]
    by_cases hk1 : k = a + 1
    · subst hk1
      simp [hcond]
    · have hj : idleAt (a + 1) = false := hprev (a + 1) (by omega) (by omega)
      rw [if_neg (by simp [hj]), if_neg (by omega)]
      exact ihm (a + 1) k (by omega) (by omega) hk hcond
        (fun j hj1 hj2 => hprev j (by omega) hj2)

/-- When the idleness conditions never hold within the window, `idleCheck`
resolves at poll 121: the first poll at which the attempt counter exceeds
the 120-attempt ceiling. -/
theorem idleCheck_never (idleAt : Nat → Bool) :
    ∀ (n a : Nat), 121 - a ≤ n → a ≤ 120 → (∀ j, j ≤ 121 → idleAt j = false) →
      idleCheck idleAt a = 121 := by
  intro n
  induction n with
  | zero =>
    intro a h ha _
    omega
  | succ m ihm =>
    intro a h ha hcond
    rw [idleCheck]
    have hf : idleAt (a + 1) = false := hcond (a + 1) (by omega)
    rw [if_neg (by simp [hf])]
    by_cases hlast : a = 120
    · subst hlast
      rw [if_pos (by omega)]
    · rw [if_neg (by omega)]
      exact ihm (a + 1) (by omega) (by omega) hcond

/-- `idleCheck` never runs past poll `max (a + 1) 121`. -/
theorem idleCheck_le (idleAt : Nat → Bool) :
    ∀ (n a : Nat), 121 - a ≤ n → idleCheck idleAt a ≤ max (a + 1) 121 := by
  intro n
  induction n with
  | zero =>
    intro a h
    rw [idleCheck]
    split
    · exact le_max_left _ _
    · split
      · exact le_max_left _ _
      · omega
  | succ m ihm =>
    intro a h
    rw [idleCheck]
    split
    · exact le_max_left _ _
    · split
      · exact le_max_left _ _
      · rename_i h120
        have hrec := ihm (a + 1) (by omega)
        have hm : max (a + 1 + 1) 121 = 121 := Nat.max_eq_right (by omega)
        rw [hm] at hrec
        exact le_trans hrec (le_max_right _ _)

/-! ### Lemmas about the allowlist matcher -/

/-- A pattern-shaped entry is nonempty. -/
theorem isPatternEntry_ne_empty {item : String} (h : isPatternEntry item = true) :
    ¬ item = "" := by
  intro h0
  subst h0
  simp [isPatternEntry, jsStartsWith, jsLength] at h

/-- For a nonempty hostname, the per-entry test inside `isAllowedUrl`
coincides with the spec-side matcher `entryMatchesSpec`. -/
theorem allowEntry_eq_spec (rc : String → Option (String → Bool))
    (host item : String) (h : ¬ host = "") :
    (if item = "" then false
     else if jsStartsWith item ("/") && jsEndsWith item ("/") && decide (2 < jsLength item) then
       match rc (jsSliceInner item) with
       | some test => test host
       | none => false
     else host == item) = entryMatchesSpec rc item host := by
  by_cases h0 : item = ""
  · subst h0
    have hpat : isPatternEntry "" = false := by
      simp [isPatternEntry, jsStartsWith, jsLength]
    have hbe : (host == "") = false := by
      rw [beq_eq_false_iff_ne]
      exact h
    rw [if_pos rfl]
    unfold entryMatchesSpec
    rw [hpat]
    simp [hbe]
  · rw [if_neg h0]
    unfold entryMatchesSpec isPatternEntry
    rfl

/-! ### Lemmas about the activity tracker -/

/-- Replaying events never drives the pending-request counter negative. -/
theorem applyNetworkEvents_nonneg :
    ∀ (events : List (Int × Nat)) (t : Tracker), 0 ≤ t.pendingRequests →
      0 ≤ (applyNetworkEvents t events).pendingRequests := by
  intro events
  induction events with
  | nil => intro t h; exact h
  | cons e tl ih =>
    intro t _
    exact ih (markNetworkActivity e.2 e.1 t) (le_max_left 0 _)

/-- Removing an entry the predicate rejects does not change `List.any`. -/
theorem any_middle_false {α : Type} (p : α → Bool) (l1 l2 : List α) (x : α)
    (h : p x = false) :
    (l1 ++ x :: l2).any p = (l1 ++ l2).any p := by
  simp [List.any_append, List.any_cons, h]

/-! ### Claims -/

/-- C5: for every candidate URL (with a nonempty hostname, as every URL the
DOM parser produces has), `isAllowedUrl` returns true iff the URL's origin
(scheme+host+port) equals the crawl's starting origin and its hostname
matches at least one allowlist entry — a literal entry by exact hostname
equality, a `/`-delimited entry via the compiled regular expression matched
against the hostname (`entryMatchesSpec`) — and in particular every
cross-origin URL is rejected no matter what the allowlist contains. -/
theorem C5_allowlist_semantics (env : Env) (allowlist : List String)
    (target : Url) (h : ¬ target.host = "") :
    (isAllowedUrl env allowlist target = true ↔
      (target.origin = env.location.origin ∧
        ∃ item ∈ allowlist, entryMatchesSpec env.regexCompile item target.host = true)) ∧
    (¬ target.origin = env.location.origin → isAllowedUrl env allowlist target = false) := by
  constructor
  · unfold isAllowedUrl
    by_cases horig : target.origin = env.location.origin
    · rw [if_pos horig, List.any_eq_true]
      constructor
      · rintro ⟨item, hmem, hitem⟩
        refine ⟨horig, item, hmem, ?_⟩
        rw [← allowEntry_eq_spec env.regexCompile target.host item h]
        exact hitem
      · rintro ⟨_, item, hmem, hitem⟩
        refine ⟨item, hmem, ?_⟩
        rw [allowEntry_eq_spec env.regexCompile target.host item h]
        exact hitem
    · rw [if_neg horig]
      simp [horig]
  · intro horig
    unfold isAllowedUrl
    rw [if_neg horig]

/-- C5 witness: a pattern entry admits a same-origin subdomain-style host,
and a cross-origin URL is rejected. -/
theorem C5_allowlist_semantics_witness :
    ¬ (Url.mk "https" "a.example.com" "" "/" "").host = "" ∧
    (isAllowedUrl
        (Env.mk 2 50 (Url.mk "https" "a.example.com" "" "/" "")
          (fun p => if p = "ok" then some (fun hst => hst == "a.example.com") else none)
          (fun _ _ => none))
        ["/ok/"] (Url.mk "https" "a.example.com" "" "/" "") = true ↔
      ((Url.mk "https" "a.example.com" "" "/" "").origin =
          (Url.mk "https" "a.example.com" "" "/" "").origin ∧
        ∃ item ∈ ["/ok/"],
          entryMatchesSpec
            (fun p => if p = "ok" then some (fun hst => hst == "a.example.com") else none)
            item "a.example.com" = true)) := by
  constructor
  · decide
  · exact (C5_allowlist_semantics
      (Env.mk 2 50 (Url.mk "https" "a.example.com" "" "/" "")
        (fun p => if p = "ok" then some (fun hst => hst == "a.example.com") else none)
        (fun _ _ => none))
      ["/ok/"] (Url.mk "https" "a.example.com" "" "/" "") (by decide)).1

/-- C6: an allowlist entry that is pattern-shaped but whose body fails to
compile as a regular expression contributes nothing to the match: the
matcher behaves exactly as if the entry were absent, so the remaining
entries are still consulted, and — the embedding being a total function,
mirroring the source's try/catch around `new RegExp` — no error escapes
the call. -/
theorem C6_malformed_pattern (env : Env) (al1 al2 : List String) (item : String)
    (target : Url) (hpat : isPatternEntry item = true)
    (hbad : env.regexCompile (jsSliceInner item) = none) :
    isAllowedUrl env (al1 ++ item :: al2) target =
      isAllowedUrl env (al1 ++ al2) target := by
  have hne := isPatternEntry_ne_empty hpat
  have hcond : (jsStartsWith item ("/") && jsEndsWith item ("/") &&
      decide (2 < jsLength item)) = true := by
    simpa [isPatternEntry] using hpat
  unfold isAllowedUrl
  by_cases horig : target.origin = env.location.origin
  · rw [if_pos horig, if_pos horig]
    refine any_middle_false _ al1 al2 item ?_
    show (if item = "" then false
      else if jsStartsWith item ("/") && jsEndsWith item ("/") && decide (2 < jsLength item) then
        match env.regexCompile (jsSliceInner item) with
        | some test => test target.host
        | none => false
      else target.host == item) = false
    rw [if_neg hne, if_pos hcond, hbad]
  · rw [if_neg horig, if_neg horig]

/-- C6 witness: the malformed entry `/(/` is skipped and the literal entry
after it still matches. -/
theorem C6_malformed_pattern_witness :
    isPatternEntry "/(/" = true ∧
    isAllowedUrl
        (Env.mk 2 50 (Url.mk "https" "site.example" "" "/" "")
          (fun _ => none) (fun _ _ => none))
        (["/(/"] ++ ["site.example"]) (Url.mk "https" "site.example" "" "/" "") =
      isAllowedUrl
        (Env.mk 2 50 (Url.mk "https" "site.example" "" "/" "")
          (fun _ => none) (fun _ _ => none))
        (["site.example"]) (Url.mk "https" "site.example" "" "/" "") := by
  constructor
  · decide
  · exact C6_malformed_pattern
      (Env.mk 2 50 (Url.mk "https" "site.example" "" "/" "")
        (fun _ => none) (fun _ _ => none))
      [] ["site.example"] "/(/" (Url.mk "https" "site.example" "" "/" "")
      (by decide) rfl

/-- C7: calling `startCrawl` while the session is already running is a
no-op — the whole state (flags, VisitedSet, Frontier, visited-page
counter, start timestamp) is returned unchanged, and the embedding being a
total function, no exception is raised. -/
theorem C7_start_while_running_noop (env : Env)
    (configAllowlist dynamicAllowlist : List String) (now : Nat)
    (curPage : Option (List String)) (pages : List (Option (List String)))
    (st : CrawlState) (h : st.isRunning = true) :
    startCrawl env configAllowlist dynamicAllowlist now curPage pages st = st := by
  unfold startCrawl
  rw [if_pos h]

/-- C7 witness: a concrete running state is returned untouched. -/
theorem C7_start_while_running_noop_witness :
    (CrawlState.mk true false false (some 5) 2
        [FrontierEntry.mk (Url.mk "https" "site.example" "" "/a" "") 1]
        [Url.mk "https" "site.example" "" "/" ""] ["site.example"]).isRunning = true ∧
    startCrawl
        (Env.mk 2 50 (Url.mk "https" "site.example" "" "/" "")
          (fun _ => none) (fun _ _ => none))
        ["site.example"] [] 99 (some []) []
        (CrawlState.mk true false false (some 5) 2
          [FrontierEntry.mk (Url.mk "https" "site.example" "" "/a" "") 1]
          [Url.mk "https" "site.example" "" "/" ""] ["site.example"]) =
      CrawlState.mk true false false (some 5) 2
        [FrontierEntry.mk (Url.mk "https" "site.example" "" "/a" "") 1]
        [Url.mk "https" "site.example" "" "/" ""] ["site.example"] := by
  refine ⟨rfl, ?_⟩
  exact C7_start_while_running_noop
    (Env.mk 2 50 (Url.mk "https" "site.example" "" "/" "")
      (fun _ => none) (fun _ _ => none))
    ["site.example"] [] 99 (some []) [] _ rfl

/-- C9: when a remote endpoint is configured and both the direct POST and
the privileged-channel POST fail, delivering one payload makes exactly the
two network attempts and persists exactly two artifacts — one `.html`, one
`.png` — sharing the zero-padded 4-digit sequence stem derived from the
running visited-page count. -/
theorem C9_delivery_fallback (denv : DeliveryEnv) (pagesVisited : Nat)
    (hep : ¬ denv.postEndpoint = "") (hfetch : denv.fetchOk = false)
    (hgm : denv.gmAvailable = true) (hgmOk : denv.gmOk = false) :
    handleOutput denv true pagesVisited =
      [DeliveryEvent.postDirect, DeliveryEvent.postGM,
       DeliveryEvent.download
         ("page-" ++ padStart (toString (pagesVisited + 1)) 4 '0' ++ ".html"),
       DeliveryEvent.download
         ("page-" ++ padStart (toString (pagesVisited + 1)) 4 '0' ++ ".png")] ∧
    ((handleOutput denv true pagesVisited).filter (fun e => e.isDownload)).length = 2 ∧
    ((handleOutput denv true pagesVisited).filter (fun e => e.isPost)).length = 2 := by
  have hev : handleOutput denv true pagesVisited =
      [DeliveryEvent.postDirect, DeliveryEvent.postGM,
       DeliveryEvent.download
         ("page-" ++ padStart (toString (pagesVisited + 1)) 4 '0' ++ ".html"),
       DeliveryEvent.download
         ("page-" ++ padStart (toString (pagesVisited + 1)) 4 '0' ++ ".png")] := by
    unfold handleOutput postPayload downloadPayload
    simp [hep, hfetch, hgm, hgmOk]
  refine ⟨hev, ?_, ?_⟩ <;>
    simp [hev, DeliveryEvent.isDownload, DeliveryEvent.isPost]

/-- C9 witness: the seventh page (visited count 6) yields the two
`page-0007` artifacts after the two failed attempts. -/
theorem C9_delivery_fallback_witness :
    ¬ (DeliveryEnv.mk "https://sink.example/ingest" false true false).postEndpoint = "" ∧
    handleOutput (DeliveryEnv.mk "https://sink.example/ingest" false true false) true 6 =
      [DeliveryEvent.postDirect, DeliveryEvent.postGM,
       DeliveryEvent.download ("page-0007.html"),
       DeliveryEvent.download ("page-0007.png")] := by
  constructor
  · decide
  · have h := (C9_delivery_fallback
      (DeliveryEnv.mk "https://sink.example/ingest" false true false) 6
      (by decide) rfl rfl rfl).1
    simpa using h

/-- C10: for every sequence of network-activity events — increments and
decrements in any order, including more decrements than increments — the
pending-request counter of a tracker never becomes negative
(`markNetworkActivity` clamps at zero), so the network-idle test
`pendingRequests <= 0` coincides with `pendingRequests == 0`. -/
theorem C10_pending_never_negative (now : Nat) (events : List (Int × Nat)) :
    0 ≤ (applyNetworkEvents (initTracker now) events).pendingRequests ∧
    ((applyNetworkEvents (initTracker now) events).pendingRequests ≤ 0 ↔
      (applyNetworkEvents (initTracker now) events).pendingRequests = 0) := by
  have h := applyNetworkEvents_nonneg events (initTracker now) (by simp [initTracker])
  exact ⟨h, by omega⟩

/-- C8 counterexample: for a page context whose idleness conditions never
hold, `waitForIdle` resolves at the 121st poll — the `attempts > 120` test
fires only on the poll after the 120-attempt ceiling — so it does not
resolve by the stated fixed maximum attempt count of 120. -/
theorem C8_counterexample :
    waitForIdle (fun _ => false) = 121 ∧ ¬ waitForIdle (fun _ => false) ≤ 120 := by
  have h : waitForIdle (fun _ => false) = 121 := by
    unfold waitForIdle
    exact idleCheck_never (fun _ => false) 121 0 (by omega) (by omega) (fun _ _ => rfl)
  exact ⟨h, by omega⟩

/-- C8 (amended): `waitForIdle` always resolves, at the first poll (of the
at most 121 made) at which both idleness conditions hold; when no poll up
to the 121st satisfies them — in particular for a context where they never
hold — it resolves at the 121st poll (the first one on which the attempt
counter exceeds the fixed 120-attempt ceiling, i.e. after 120 failed
attempts) and not later. -/
theorem C8_wait_for_idle_amended (idleAt : Nat → Bool) :
    (∀ k, 1 ≤ k → k ≤ 121 → idleAt k = true →
      (∀ j, 1 ≤ j → j < k → idleAt j = false) → waitForIdle idleAt = k) ∧
    ((∀ j, j ≤ 121 → idleAt j = false) → waitForIdle idleAt = 121) ∧
    waitForIdle idleAt ≤ 121 := by
  refine ⟨?_, ?_, ?_⟩
  · intro k h1 h2 hc hprev
    unfold waitForIdle
    exact idleCheck_first idleAt 121 0 k (by omega) (by omega) h2 hc
      (fun j hj1 hj2 => hprev j (by omega) hj2)
  · intro h
    unfold waitForIdle
    exact idleCheck_never idleAt 121 0 (by omega) (by omega) h
  · unfold waitForIdle
    have h := idleCheck_le idleAt 121 0 (by omega)
    simpa using h

/-- C8 witness: a context that settles at the third poll resolves exactly
there. -/
theorem C8_wait_for_idle_amended_witness :
    waitForIdle (fun k => k == 3) = 3 := by
  refine (C8_wait_for_idle_amended (fun k => k == 3)).1 3 (by omega) (by omega)
    (by decide) ?_
  intro j h1 h2
  rw [beq_eq_false_iff_ne]
  omega

/-- A tiny same-origin site used by the concrete counterexamples: the
starting location `https://site.example/`. -/
def cexLoc : Url :=
  { scheme := "https", host := "site.example", port := "", path := "/", hash := "" }

/-- The idle pre-session state (as after script initialization). -/
def cexIdleState : CrawlState :=
  { isRunning := false, isPaused := false, isStopping := false, startTime := none,
    pagesVisited := 0, queue := [], visited := [], allowlist := ["site.example"] }

/-- Environment for the C1 counterexample: defaults (`maxDepth = 2`,
`maxPages = 50`) at `cexLoc`; link resolution is never exercised. -/
def cexEnvC1 : Env :=
  { maxDepth := 2, maxPages := 50, location := cexLoc,
    regexCompile := fun _ => none, resolveHref := fun _ _ => none }

/-- Environment for the C2 counterexample: `maxPages = 3`, every href
resolves to a same-origin path. -/
def cexEnvC2 : Env :=
  { maxDepth := 2, maxPages := 3, location := cexLoc,
    regexCompile := fun _ => none,
    resolveHref := fun href _ =>
      some { scheme := "https", host := "site.example", port := "", path := href,
             hash := "" } }

/-- The session state right after `crawlCurrentPage` in a run where the
starting page links to `/b`: the starting URL is visited, the stale seed
entry and the `/b` entry are queued. -/
def cexAfterCurrent : CrawlState :=
  crawlCurrentPage cexEnvC2 (some ["/b"])
    (startCrawlSeed cexEnvC2 ["site.example"] [] 0 cexIdleState)

/-- The loop state after two iterations of `runQueue` in a session where
the starting page links to `/b` and `/b` links to `/c` and `/d`: the first
iteration dequeues and skips the stale seed entry, the second visits `/b`
and enqueues its two links before marking `/b` visited. -/
def cexMidState : CrawlState :=
  (runQueueGo cexEnvC2 2 cexAfterCurrent [some ["/c", "/d"]]).1

/-- C1 counterexample: in every real run, `startCrawl` seeds the Frontier
with the current page and `crawlCurrentPage` then adds the same URL to the
VisitedSet without removing the seed entry, so immediately after
`crawlCurrentPage` (before `runQueue` dequeues and skips the stale entry)
the starting URL is present in the Frontier and the VisitedSet at the same
time, refuting the claimed disjointness. -/
theorem C1_counterexample :
    cexLoc ∈ (crawlCurrentPage cexEnvC1 (some [])
        (startCrawlSeed cexEnvC1 ["site.example"] [] 0 cexIdleState)).visited ∧
    ∃ e ∈ (crawlCurrentPage cexEnvC1 (some [])
        (startCrawlSeed cexEnvC1 ["site.example"] [] 0 cexIdleState)).queue,
      e.url = cexLoc := by
  decide

/-- C1 (amended): a URL present in the VisitedSet is never re-captured —
`crawlCurrentPage` is a no-op when the current URL is already visited, and
every entry the crawl loop successfully processes (captures and marks
visited) had a URL outside the VisitedSet when the loop was entered (it
ends up inside afterwards), so stale Frontier entries for visited URLs are
dequeued and skipped, never acted on; `enqueueLinks` never adds a URL that
is already in the VisitedSet, nor one already in the Frontier, and no URL
is ever successfully processed twice by the loop. However the page
currently being processed is marked visited only after its own Frontier
entry or self-links have been handled, so that one URL can transiently sit
in both structures until its stale entry is dequeued and skipped. -/
theorem C1_no_revisit_amended (env : Env) :
    (∀ curPage st, normalizeUrl env.location ∈ st.visited →
      crawlCurrentPage env curPage st = st) ∧
    (∀ links baseUrl d st e, e ∈ (enqueueLinks env links baseUrl d st).queue →
      e ∈ st.queue ∨ (e.url ∉ st.visited ∧ ∀ i ∈ st.queue, i.url ≠ e.url)) ∧
    (∀ st pages p, p ∈ (runQueueAux env st pages).2 → p.2 = true →
      p.1.url ∉ st.visited ∧ p.1.url ∈ (runQueueAux env st pages).1.visited) ∧
    (∀ st pages, (succUrls (runQueueAux env st pages).2).Nodup) := by
  refine ⟨?_, ?_, ?_, ?_⟩
  · intro curPage st h
    unfold crawlCurrentPage
    rw [if_pos h]
  · intro links baseUrl d st e hmem
    rcases enqueueLinks_spec env links baseUrl d st with ⟨extra, he, hcond, _⟩
    rw [he] at hmem
    rcases List.mem_append.mp hmem with hq | hx
    · exact Or.inl hq
    · rcases hcond e hx with ⟨_, hnv, hnq⟩
      exact Or.inr ⟨hnv, hnq⟩
  · intro st pages p hp ht
    exact (runQueueGo_master env (runQueueFuel env st pages) st pages).2.2.2.2.1 p hp ht
  · intro st pages
    exact (runQueueGo_master env (runQueueFuel env st pages) st pages).2.2.2.2.2

/-- C1 witness: re-capturing the already-visited start page is a no-op, a
concrete enqueued entry is classified by the amended dichotomy, and a
concretely processed loop entry was unvisited before and visited after. -/
theorem C1_no_revisit_amended_witness :
    (normalizeUrl cexEnvC1.location ∈
        (crawlCurrentPage cexEnvC1 (some [])
          (startCrawlSeed cexEnvC1 ["site.example"] [] 0 cexIdleState)).visited) ∧
    (crawlCurrentPage cexEnvC1 (some [])
        (crawlCurrentPage cexEnvC1 (some [])
          (startCrawlSeed cexEnvC1 ["site.example"] [] 0 cexIdleState)) =
      crawlCurrentPage cexEnvC1 (some [])
        (startCrawlSeed cexEnvC1 ["site.example"] [] 0 cexIdleState)) ∧
    (FrontierEntry.mk cexLoc 0 ∈
        (enqueueLinks cexEnvC1 [] cexLoc 0
          (startCrawlSeed cexEnvC1 ["site.example"] [] 0 cexIdleState)).queue) ∧
    (FrontierEntry.mk cexLoc 0 ∈
        (startCrawlSeed cexEnvC1 ["site.example"] [] 0 cexIdleState).queue ∨
      ((FrontierEntry.mk cexLoc 0).url ∉
          (startCrawlSeed cexEnvC1 ["site.example"] [] 0 cexIdleState).visited ∧
        ∀ i ∈ (startCrawlSeed cexEnvC1 ["site.example"] [] 0 cexIdleState).queue,
          i.url ≠ (FrontierEntry.mk cexLoc 0).url)) ∧
    ((FrontierEntry.mk (Url.mk "https" "site.example" "" "/b" "") 1, true) ∈
        (runQueueAux cexEnvC2 cexAfterCurrent [some ["/c", "/d"]]).2) ∧
    ((FrontierEntry.mk (Url.mk "https" "site.example" "" "/b" "") 1).url ∉
        cexAfterCurrent.visited ∧
      (FrontierEntry.mk (Url.mk "https" "site.example" "" "/b" "") 1).url ∈
        (runQueueAux cexEnvC2 cexAfterCurrent [some ["/c", "/d"]]).1.visited) := by
  have hmem : (FrontierEntry.mk (Url.mk "https" "site.example" "" "/b" "") 1, true) ∈
      (runQueueAux cexEnvC2 cexAfterCurrent [some ["/c", "/d"]]).2 := by
    decide
  refine ⟨by decide, ?_, by decide, ?_, hmem, ?_⟩
  · exact (C1_no_revisit_amended cexEnvC1).1 (some [])
      (crawlCurrentPage cexEnvC1 (some [])
        (startCrawlSeed cexEnvC1 ["site.example"] [] 0 cexIdleState))
      (by decide)
  · exact (C1_no_revisit_amended cexEnvC1).2.1 [] cexLoc 0
      (startCrawlSeed cexEnvC1 ["site.example"] [] 0 cexIdleState)
      (FrontierEntry.mk cexLoc 0) (by decide)
  · exact (C1_no_revisit_amended cexEnvC2).2.2.1 cexAfterCurrent [some ["/c", "/d"]]
      (FrontierEntry.mk (Url.mk "https" "site.example" "" "/b" "") 1, true)
      hmem rfl

/-- C2 counterexample: with `maxPages = 3`, after the crawl loop processes
`/b` (a reachable mid-run state: `enqueueLinks` runs before the in-flight
page is counted as visited), the VisitedSet holds 2 URLs and the Frontier
2 entries — their sum 4 exceeds the max-page budget 3, refuting the
claimed `maxPages` bound. -/
theorem C2_counterexample :
    cexMidState.visited.length + cexMidState.queue.length = 4 ∧
    ¬ (cexMidState.visited.length + cexMidState.queue.length ≤ cexEnvC2.maxPages) := by
  constructor
  · decide
  · decide

/-- A full `startCrawl` run establishes the budget invariant from any
non-running state, for a positive page budget. -/
theorem startCrawl_budget (env : Env) (configAllowlist dynamicAllowlist : List String)
    (now : Nat) (curPage : Option (List String))
    (pages : List (Option (List String))) (st : CrawlState)
    (hrun : st.isRunning = false) (hM : 1 ≤ env.maxPages) :
    budgetInv env (startCrawl env configAllowlist dynamicAllowlist now curPage pages st) := by
  have hinv2 : budgetInv env (crawlCurrentPage env curPage
      (startCrawlSeed env configAllowlist dynamicAllowlist now st)) := by
    apply crawlCurrentPage_inv
    · rfl
    · show 0 + 1 ≤ env.maxPages
      omega
    · show 0 < env.maxPages
      omega
  unfold startCrawl
  rw [if_neg (by simp [hrun])]
  split
  · exact hinv2
  · exact runQueue_budget env _ pages hinv2

/-- C2 (amended): during a crawl session with a positive page budget the
visited+queued total is bounded by `maxPages + 1` (not `maxPages`): the
bound holds after the seed, after the starting page is processed, after
the full run, is preserved by `enqueueLinks` from any counter-synchronized
state within the bound, and is preserved by the crawl loop. The budget
check counts the in-flight page only through the queue, so the total can
reach `maxPages + 1` right after a page is marked visited. -/
theorem C2_budget_sum_amended (env : Env)
    (configAllowlist dynamicAllowlist : List String) (now : Nat)
    (curPage : Option (List String)) (pages : List (Option (List String)))
    (st : CrawlState) (hrun : st.isRunning = false) (hM : 1 ≤ env.maxPages) :
    ((startCrawlSeed env configAllowlist dynamicAllowlist now st).visited.length +
      (startCrawlSeed env configAllowlist dynamicAllowlist now st).queue.length ≤
      env.maxPages + 1) ∧
    ((crawlCurrentPage env curPage
        (startCrawlSeed env configAllowlist dynamicAllowlist now st)).visited.length +
      (crawlCurrentPage env curPage
        (startCrawlSeed env configAllowlist dynamicAllowlist now st)).queue.length ≤
      env.maxPages + 1) ∧
    ((startCrawl env configAllowlist dynamicAllowlist now curPage pages st).visited.length +
      (startCrawl env configAllowlist dynamicAllowlist now curPage pages st).queue.length ≤
      env.maxPages + 1) ∧
    (∀ links baseUrl d st', st'.visited.length = st'.pagesVisited →
      st'.visited.length + st'.queue.length ≤ env.maxPages + 1 →
      (enqueueLinks env links baseUrl d st').visited.length +
        (enqueueLinks env links baseUrl d st').queue.length ≤ env.maxPages + 1) ∧
    (∀ st' pages', budgetInv env st' → budgetInv env (runQueueAux env st' pages').1) := by
  have hinv2 : budgetInv env (crawlCurrentPage env curPage
      (startCrawlSeed env configAllowlist dynamicAllowlist now st)) := by
    apply crawlCurrentPage_inv
    · rfl
    · show 0 + 1 ≤ env.maxPages
      omega
    · show 0 < env.maxPages
      omega
  refine ⟨?_, hinv2.2.1, (startCrawl_budget env configAllowlist dynamicAllowlist now
      curPage pages st hrun hM).2.1, ?_, ?_⟩
  · show 0 + 1 ≤ env.maxPages + 1
    omega
  · intro links baseUrl d st' h1 h2
    rcases enqueueLinks_spec env links baseUrl d st' with ⟨extra, he, _, hlen⟩
    have hb2 : st'.queue.length + extra.length + st'.pagesVisited ≤ env.maxPages + 1 :=
      le_trans hlen (Nat.max_le.mpr ⟨by omega, by omega⟩)
    rw [he]
    simp only [List.length_append]
    omega
  · intro st' pages' h
    exact (runQueueGo_master env (runQueueFuel env st' pages') st' pages').2.1 h

/-- C2 witness: a concrete full run stays within `maxPages + 1`. -/
theorem C2_budget_sum_amended_witness :
    cexIdleState.isRunning = false ∧ 1 ≤ cexEnvC1.maxPages ∧
    (startCrawl cexEnvC1 ["site.example"] [] 0 (some []) [] cexIdleState).visited.length +
      (startCrawl cexEnvC1 ["site.example"] [] 0 (some []) [] cexIdleState).queue.length ≤
      cexEnvC1.maxPages + 1 :=
  ⟨rfl, by decide,
    (C2_budget_sum_amended cexEnvC1 ["site.example"] [] 0 (some []) [] cexIdleState
      rfl (by decide)).2.2.1⟩

/-- C3: for every crawl run from a non-running state with a positive page
budget, the VisitedSet size never exceeds `maxPages`, regardless of link
fan-out: after the full run, after the starting page is processed from any
in-budget state, and across the crawl loop from any counter-synchronized
state within the bound. -/
theorem C3_visited_bound (env : Env) (configAllowlist dynamicAllowlist : List String)
    (now : Nat) (curPage : Option (List String))
    (pages : List (Option (List String))) (st : CrawlState)
    (hrun : st.isRunning = false) (hM : 1 ≤ env.maxPages) :
    ((startCrawl env configAllowlist dynamicAllowlist now curPage pages st).visited.length ≤
      env.maxPages) ∧
    (∀ curPage' st', st'.visited.length = st'.pagesVisited →
      st'.visited.length + st'.queue.length ≤ env.maxPages →
      st'.pagesVisited < env.maxPages →
      (crawlCurrentPage env curPage' st').visited.length ≤ env.maxPages) ∧
    (∀ st' pages', st'.visited.length = st'.pagesVisited →
      st'.visited.length ≤ env.maxPages →
      (runQueueAux env st' pages').1.visited.length ≤ env.maxPages) := by
  refine ⟨(startCrawl_budget env configAllowlist dynamicAllowlist now curPage pages st
      hrun hM).2.2, ?_, ?_⟩
  · intro curPage' st' h1 h2 h3
    exact (crawlCurrentPage_inv env curPage' st' h1 h2 h3).2.2
  · intro st' pages' h1 h2
    exact ((runQueueGo_master env (runQueueFuel env st' pages') st' pages').2.2.1 ⟨h1, h2⟩).2

/-- C3 witness: a concrete full run's VisitedSet stays within the budget. -/
theorem C3_visited_bound_witness :
    cexIdleState.isRunning = false ∧ 1 ≤ cexEnvC2.maxPages ∧
    (startCrawl cexEnvC2 ["site.example"] [] 0 (some ["/b"]) [some ["/c", "/d"]]
        cexIdleState).visited.length ≤ cexEnvC2.maxPages :=
  ⟨rfl, by decide,
    (C3_visited_bound cexEnvC2 ["site.example"] [] 0 (some ["/b"]) [some ["/c", "/d"]]
      cexIdleState rfl (by decide)).1⟩

/-- C4: `enqueueLinks` is a no-op for a whole pass whose children would
exceed `maxDepth`, and per link `processAnchor` is a no-op for an
already-visited URL, an already-queued URL, a URL the allowlist rejects,
and when queued plus visited counts have reached `maxPages`; consequently
(and because the loop re-checks depth at dequeue) every entry the crawl
loop dequeues into action has depth at most `maxDepth`. -/
theorem C4_enqueue_rejections (env : Env) :
    (∀ links baseUrl d st, env.maxDepth < d + 1 →
      enqueueLinks env links baseUrl d st = st) ∧
    (∀ baseUrl d st href u, env.resolveHref href baseUrl = some u →
      normalizeUrl u ∈ st.visited → processAnchor env baseUrl d st href = st) ∧
    (∀ baseUrl d st href u, env.resolveHref href baseUrl = some u →
      (∃ i ∈ st.queue, i.url = normalizeUrl u) →
      processAnchor env baseUrl d st href = st) ∧
    (∀ baseUrl d st href u, env.resolveHref href baseUrl = some u →
      isAllowedUrl env st.allowlist (normalizeUrl u) = false →
      processAnchor env baseUrl d st href = st) ∧
    (∀ baseUrl d st href, env.maxPages ≤ st.queue.length + st.pagesVisited →
      processAnchor env baseUrl d st href = st) ∧
    (∀ st pages p, p ∈ (runQueueAux env st pages).2 → p.1.depth ≤ env.maxDepth) := by
  refine ⟨?_, ?_, ?_, ?_, ?_, ?_⟩
  · intro links baseUrl d st h
    unfold enqueueLinks
    rw [if_pos h]
  · intro baseUrl d st href u hres hvis
    rcases processAnchor_spec env baseUrl d st href with hno | ⟨u', hres', _, hnv, _, _, _⟩
    · exact hno
    · rw [hres] at hres'
      cases Option.some.inj hres'
      exact absurd hvis hnv
  · intro baseUrl d st href u hres hqm
    rcases processAnchor_spec env baseUrl d st href with hno | ⟨u', hres', _, _, hnq, _, _⟩
    · exact hno
    · rw [hres] at hres'
      cases Option.some.inj hres'
      rcases hqm with ⟨i, hi, hiu⟩
      exact absurd hiu (hnq i hi)
  · intro baseUrl d st href u hres hall
    rcases processAnchor_spec env baseUrl d st href with hno | ⟨u', hres', hall', _, _, _, _⟩
    · exact hno
    · rw [hres] at hres'
      cases Option.some.inj hres'
      rw [hall] at hall'
      exact absurd hall' (by simp)
  · intro baseUrl d st href hb
    rcases processAnchor_spec env baseUrl d st href with hno | ⟨u', _, _, _, _, hb', _⟩
    · exact hno
    · omega
  · intro st pages p hp
    exact (runQueueGo_master env (runQueueFuel env st pages) st pages).2.2.2.1 p hp

/-- C4 witness: a depth-exceeding pass is a no-op, a budget-exhausted
enqueue is a no-op, and a concretely dequeued-into-action entry respects
the depth bound. -/
theorem C4_enqueue_rejections_witness :
    (enqueueLinks (Env.mk 0 50 cexLoc (fun _ => none) (fun _ _ => none))
        ["/x"] cexLoc 0 cexIdleState = cexIdleState) ∧
    (processAnchor (Env.mk 2 0 cexLoc (fun _ => none) (fun _ _ => none))
        cexLoc 0 cexIdleState "/x" = cexIdleState) ∧
    ((FrontierEntry.mk (Url.mk "https" "site.example" "" "/b" "") 1, true) ∈
      (runQueueAux cexEnvC2 cexAfterCurrent [some ["/c", "/d"]]).2) ∧
    (FrontierEntry.mk (Url.mk "https" "site.example" "" "/b" "") 1).depth ≤
      cexEnvC2.maxDepth := by
  refine ⟨?_, ?_, by decide, ?_⟩
  · exact (C4_enqueue_rejections (Env.mk 0 50 cexLoc (fun _ => none)
      (fun _ _ => none))).1 ["/x"] cexLoc 0 cexIdleState (by decide)
  · exact (C4_enqueue_rejections (Env.mk 2 0 cexLoc (fun _ => none)
      (fun _ _ => none))).2.2.2.2.1 cexLoc 0 cexIdleState "/x" (by decide)
  · exact (C4_enqueue_rejections cexEnvC2).2.2.2.2.2 cexAfterCurrent
      [some ["/c", "/d"]] (FrontierEntry.mk (Url.mk "https" "site.example" "" "/b" "") 1, true)
      (by decide)

end Crawler
